import Mathlib

set_option autoImplicit false

/-!
# Verification of `cassetta.io.modules` (the Loadable serialize/reconstruct engine)

This file is a shallow embedding of `src/cassetta/io/modules.py`: the
`LoadableMixin` argument-capture / serialize / deserialize engine, its container
variants (`LoadableSequential`, `LoadableModuleList`, `LoadableModuleDict`), the
optimizer variant (`LoadableOptimizer`), `make_loadable`, and the validation
helpers.  Python values are modelled by the inductive type `Val`; Python
exceptions by `Except PyErr`; Python's bounded recursion by an explicit fuel
parameter (running out of fuel models `RecursionError`).

Dictionaries are modelled as insertion-ordered association lists with
string keys, mirroring Python's insertion-ordered `dict`; the records built by
the engine never repeat a key, and lookups return the first match.

A second, heap-level model near the end of the definitions makes Python object
identity explicit; it is used only for the aliasing properties of the argument
snapshot taken by `save_args`.
-/

namespace Cassetta

/-- Which of the engine's class families a concrete class belongs to, i.e.
which `serialize`/`__init__` overrides apply (Python dispatches on the MRO;
the shipped overrides are those of `LoadableSequential`, `LoadableModuleList`,
`LoadableModuleDict` and `LoadableOptimizer`; everything else uses the plain
`LoadableMixin` behaviour). -/
inductive Kind where
  | generic
  | seq
  | mlist
  | mdict
  | optim
deriving DecidableEq

/-- A statically defined Python class participating in the protocol:
its `__module__`, `__qualname__` and `__name__`, its family (`kind`),
whether constructing it runs an `__init__` decorated with
`@LoadableMixin.save_args` (`saveArgs`), whether it is an `nn.Module` subclass
(`isNN` — note `LoadableOptimizer` mixes into `optim.Optimizer`, which is not
an `nn.Module`), and `initNumParams`, the value of
`len(signature(self.__init__).parameters)` — the parameter count of the
*bound* `__init__`, which therefore excludes `self`. -/
structure ClassCore where
  module : String
  qualname : String
  name : String
  kind : Kind
  saveArgs : Bool
  isNN : Bool
  initNumParams : Nat
deriving DecidableEq

/-- A Python class object as seen by the engine: either a statically defined
class, or a class produced by `make_loadable` (modules.py lines 81-114), whose
bases are `(DynamicLoadableMixin, inner)`. -/
inductive PyClass where
  | base (c : ClassCore)
  | wrapped (inner : PyClass)
deriving DecidableEq

/-- `make_loadable(klass)` (modules.py line 81): build the dynamic
`(DynamicLoadableMixin, klass)` subclass. -/
def makeLoadable (k : PyClass) : PyClass := .wrapped k

/-- The family a class dispatches to: a `make_loadable` wrapper inherits every
override of the class it wraps (the wrapper itself only adds a decorated
`__init__`). -/
def kindOfP : PyClass → Kind
  | .base c => c.kind
  | .wrapped inner => kindOfP inner

/-- Whether instances of the class are `nn.Module`s. -/
def isNNP : PyClass → Bool
  | .base c => c.isNN
  | .wrapped inner => isNNP inner

/-- Whether constructing the class captures arguments: the `make_loadable`
wrapper's `__init__` is always decorated with `save_args`
(modules.py lines 107-110). -/
def saveArgsP : PyClass → Bool
  | .base c => c.saveArgs
  | .wrapped _ => true

/-- `len(signature(self.__init__).parameters)` for an instance of the class:
the wrapper's decorated `__init__` is `wrapper(self, *args, **kwargs)`, whose
bound signature has the two parameters `args` and `kwargs`. -/
def initNumParamsP : PyClass → Nat
  | .base c => c.initNumParams
  | .wrapped _ => 2

/-- The `__name__` of a class: `make_loadable` sets the wrapper's `__name__`
(and `__qualname__`) to `"Loadable" + klass.__name__` (modules.py 112-113). -/
def nameOf : PyClass → String
  | .base c => c.name
  | .wrapped inner => "Loadable" ++ nameOf inner

/-- The module in which classes created by `make_loadable` are defined. -/
def dynModule : String := "cassetta.io.modules"

/-- A class's own `(__module__, __qualname__)` pair. -/
def selfId : PyClass → String × String
  | .base c => (c.module, c.qualname)
  | .wrapped inner => (dynModule, "Loadable" ++ nameOf inner)

/-- The `(module, qualname)` pair emitted by the *default*
`LoadableMixin.serialize` (modules.py 259-265): `klass = type(self)`, and if
`DynamicLoadableMixin` is among the class's direct bases, `klass` is replaced
by `klass.__bases__[-1]` — for a wrapper that is the wrapped class itself,
whose own `(__module__, __qualname__)` is then used. -/
def serTag : PyClass → String × String
  | .base c => (c.module, c.qualname)
  | .wrapped inner => selfId inner

/-- A Python value as traversed by the engine.

* `tensor id param` stands for a `torch.Tensor` (`param = true` for an
  `nn.Parameter`); `id` identifies its numeric contents, which the engine never
  inspects.
* `plainMod c` is an instance of an `nn.Module` subclass that is *not* a
  `LoadableMixin`.
* `mod cls cap st children kchildren` is an instance of a
  `LoadableMixin` class `cls`: `cap` is the `(_args, _kwargs)` snapshot stored
  by `save_args` (absent when no decorated `__init__` ran — `hasattr` fails),
  `st` is the value `self.state_dict()` returns, `children` the positional
  submodules (used by the `seq`/`mlist` families), and `kchildren` the keyed
  submodules (used by the `mdict` family). -/
inductive Val where
  | intV (n : Int)
  | strV (s : String)
  | boolV (b : Bool)
  | noneV
  | tensor (id : Nat) (param : Bool)
  | listV (xs : List Val)
  | tupleV (xs : List Val)
  | dictV (es : List (String × Val))
  | plainMod (c : ClassCore)
  | mod (cls : PyClass) (cap : Option (List Val × List (String × Val))) (st : Val)
        (children : List Val) (kchildren : List (String × Val))

/-- Python exceptions raised by the engine.  `importError` carries the
`state["qualname"]` and `state["module"]` values put into the message by
`_nested_unserialize` (modules.py 193-198). -/
inductive PyErr where
  | typeError (msg : String)
  | importError (qualname module : Val)
  | keyError (k : String)
  | attributeError (msg : String)
  | recursionError

/-- Ordered string-keyed entries of a Python `dict`. -/
abbrev Entries := List (String × Val)

/-- Membership test for a key (`key in d`). -/
def dictMem (es : Entries) (k : String) : Bool :=
  es.any (fun kv => kv.1 == k)

/-- Key lookup (`d[key]` when present); first match wins. -/
def dictGet : Entries → String → Option Val
  | [], _ => none
  | (k', v) :: es, k => if k' == k then some v else dictGet es k

/-- Keyed update (`d[key] = v`): replaces the first binding in place (keeping
insertion order, as Python does) or appends a new one. -/
def dictSet : Entries → String → Val → Entries
  | [], k, v => [(k, v)]
  | (k', v') :: es, k, v =>
      if k' == k then (k', v) :: es else (k', v') :: dictSet es k v

/-- `LoadableMixin.__version__` (modules.py line 157). -/
def loadableVersion : String := "1.0"

/-- The discriminator key of a serialized record (modules.py lines 184, 263). -/
def tagKey : String := "cassetta.Loadable"

/-- `isinstance(x, LoadableMixin)` on a value. -/
def isLoadableVal : Val → Bool
  | .mod _ _ _ _ _ => true
  | _ => false

/-- `isinstance(x, nn.Module)` on a value. -/
def isNNVal : Val → Bool
  | .plainMod _ => true
  | .mod cls _ _ _ _ => isNNP cls
  | _ => false

/-- The `__class__.__name__` used in error messages. -/
def classNameOfVal : Val → String
  | .plainMod c => c.name
  | .mod cls _ _ _ _ => nameOf cls
  | .intV _ => "int"
  | .strV _ => "str"
  | .boolV _ => "bool"
  | .noneV => "NoneType"
  | .tensor _ p => if p then "Parameter" else "Tensor"
  | .listV _ => "list"
  | .tupleV _ => "tuple"
  | .dictV _ => "dict"

/-- `validate_loadable_module` (modules.py lines 25-43). -/
def validateLoadableModule (m : Val) : Except PyErr Unit :=
  if isLoadableVal m then pure () else
    throw (.typeError ("Only Loadable modules can be added. '"
      ++ classNameOfVal m ++ "' is not a LoadableMixin."))

/-- `validate_loadable_modules` (modules.py lines 46-61). -/
def validateLoadableModules : List Val → Except PyErr Unit
  | [] => pure ()
  | m :: ms => do
      validateLoadableModule m
      validateLoadableModules ms

/-- The `LoadableModuleDict.__init__` conformance loop (modules.py 520-523),
which uses its own error message. -/
def validateKeyedLoadable : Entries → Except PyErr Unit
  | [] => pure ()
  | (k, m) :: es =>
      if isLoadableVal m then validateKeyedLoadable es
      else throw (.typeError ("Module '" ++ k ++ "' must be Loadable"))

/-- Error-propagating map over a list of values. -/
def mapE (f : Val → Except PyErr Val) : List Val → Except PyErr (List Val)
  | [] => pure []
  | v :: vs => do pure ((← f v) :: (← mapE f vs))

/-- Error-propagating map over the values of keyed entries. -/
def mapKE (f : Val → Except PyErr Val) : Entries → Except PyErr Entries
  | [] => pure []
  | (k, v) :: es => do pure ((k, ← f v) :: (← mapKE f es))

/-- `getattr(self, "_args", tuple())` (modules.py line 266). -/
def capArgsD : Option (List Val × Entries) → List Val
  | some (a, _) => a
  | none => []

/-- `getattr(self, "_kwargs", dict())` (modules.py line 267). -/
def capKwD : Option (List Val × Entries) → Entries
  | some (_, k) => k
  | none => []

/-- The record built by the default `LoadableMixin.serialize`
(modules.py lines 249-269), as ordered entries. -/
def baseRecord (cls : PyClass) (cap : Option (List Val × Entries)) (st : Val) :
    Entries :=
  [(tagKey, .strV loadableVersion),
   ("module", .strV (serTag cls).1),
   ("qualname", .strV (serTag cls).2),
   ("args", .tupleV (capArgsD cap)),
   ("kwargs", .dictV (capKwD cap)),
   ("state", st)]

/-- `args[0]`/`args[1:]` handling of `LoadableOptimizer.serialize`
(modules.py lines 557-558): when the sequence is non-empty (truthy) and its
first element is a `torch.nn.Parameter` or `torch.Tensor`, it is rebuilt as the
Python list `[[]] + list(args[1:])`; otherwise it is returned unchanged.  The
value here is always the `args` entry of `baseRecord`, hence a tuple; other
shapes are returned unchanged. -/
def optimScrubArgs : Val → Val
  | .tupleV (x :: rest) =>
      match x with
      | .tensor _ _ => .listV (.listV [] :: rest)
      | _ => .tupleV (x :: rest)
  | .listV (x :: rest) =>
      match x with
      | .tensor _ _ => .listV (.listV [] :: rest)
      | _ => .listV (x :: rest)
  | v => v

/-- The record built by `LoadableOptimizer.serialize`
(modules.py lines 548-563): the default record, with `"state"` re-assigned
from `self.state_dict()`, `"args"` read back (defaulting to an empty tuple),
scrubbed of a leading parameter reference, and re-assigned along with
`"kwargs"`. -/
def optimRecord (cls : PyClass) (cap : Option (List Val × Entries)) (st : Val) :
    Entries :=
  let es0 := baseRecord cls cap st
  let es1 := dictSet es0 "state" st
  let args := (dictGet es1 "args").getD (.tupleV [])
  let kwargs := (dictGet es1 "kwargs").getD (.dictV [])
  let args := optimScrubArgs args
  dictSet (dictSet es1 "args" args) "kwargs" kwargs

/-- The record built by the container `serialize` overrides (modules.py
476-483, 505-512, 529-538): note they use `type(self).__module__` and
`type(self).__qualname__` *directly* — unlike `baseRecord` they do not unwrap
a `make_loadable` class — and emit no `"state"` entry. -/
def containerRecord (cls : PyClass) (cap : Option (List Val × Entries))
    (argsVal : Val) : Entries :=
  [(tagKey, .strV loadableVersion),
   ("module", .strV (selfId cls).1),
   ("qualname", .strV (selfId cls).2),
   ("args", argsVal),
   ("kwargs", .dictV (capKwD cap))]

/-- `obj.serialize()`: method dispatch on the value's class family.  Calling
it on a value with no `serialize` method (anything that is not a
`LoadableMixin`) is an `AttributeError`.  The container families serialize
each child by calling the child's own `serialize` (modules.py 481, 510, 535).
Fuel models Python's recursion limit. -/
def serializeVal : Nat → Val → Except PyErr Val
  | 0, _ => throw .recursionError
  | fuel+1, .mod cls cap st ch kch =>
      match kindOfP cls with
      | .generic => pure (.dictV (baseRecord cls cap st))
      | .optim => pure (.dictV (optimRecord cls cap st))
      | .seq => do
          let rs ← mapE (serializeVal fuel) ch
          pure (.dictV (containerRecord cls cap (.listV rs)))
      | .mlist => do
          let rs ← mapE (serializeVal fuel) ch
          pure (.dictV (containerRecord cls cap (.listV [.listV rs])))
      | .mdict => do
          let rs ← mapKE (serializeVal fuel) kch
          pure (.dictV (containerRecord cls cap (.listV [.dictV rs])))
  | _+1, _ => throw (.attributeError "serialize")

/-- `LoadableMixin._nested_serialize` (modules.py lines 160-179): an
`nn.Module` must be a `LoadableMixin` (else `TypeError`) and is serialized;
lists, tuples and dicts are rebuilt with recursively converted members;
everything else — including a `LoadableMixin` that is *not* an `nn.Module`,
such as a loadable optimizer — falls through every `isinstance` check and is
returned as-is. -/
def nestedSerialize : Nat → Val → Except PyErr Val
  | 0, _ => throw .recursionError
  | fuel+1, v =>
      match v with
      | .plainMod c =>
          throw (.typeError
            ("Only loadable modules (which inherit from LoadableMixin) can "
             ++ "be serialized. Type " ++ c.qualname ++ " does not."))
      | .mod cls cap st ch kch =>
          if isNNP cls then serializeVal fuel (.mod cls cap st ch kch)
          else pure (.mod cls cap st ch kch)
      | .listV xs => do pure (.listV (← mapE (nestedSerialize fuel) xs))
      | .tupleV xs => do pure (.tupleV (← mapE (nestedSerialize fuel) xs))
      | .dictV es => do pure (.dictV (← mapKE (nestedSerialize fuel) es))
      | x => pure x

/-- The argument snapshot taken by the `save_args` wrapper (modules.py
243-244): `self._args = cls._nested_serialize(args)` and likewise for
`kwargs`. -/
def captureOf (fuel : Nat) (args : List Val) (kwargs : Entries) :
    Except PyErr (List Val × Entries) := do
  pure (← mapE (nestedSerialize fuel) args, ← mapKE (nestedSerialize fuel) kwargs)

/-- The `state_dict()` of a freshly constructed instance, before any saved
state is loaded back into it.  Its actual contents depend on numeric
initialisation, which is outside this model; the deserializer overwrites it
via `load_state_dict` whenever the record carries a `"state"` entry. -/
def freshState : Val := .dictV []

/-- The instance shape `(state_dict, children, kchildren)` produced by running
a class family's underlying `__init__` chain on the given positional
arguments: `nn.Sequential.__init__` stores the arguments as children and
`LoadableSequential.__init__` then validates them (modules.py 460-462);
`LoadableModuleList`/`LoadableModuleDict` take a single optional
iterable/mapping argument and validate (modules.py 489-491, 518-523); the
generic and optimizer families store no children. -/
def initShape (k : Kind) (args : List Val) : Except PyErr (Val × List Val × Entries) :=
  match k with
  | .generic => pure (freshState, [], [])
  | .optim => pure (freshState, [], [])
  | .seq => do
      validateLoadableModules args
      pure (freshState, args, [])
  | .mlist => do
      let ms ← match args with
        | [] => pure []
        | [.noneV] => pure ([] : List Val)
        | [.listV ms] => pure ms
        | [.tupleV ms] => pure ms
        | _ => throw (.typeError "ModuleList expects an iterable of modules")
      validateLoadableModules ms
      pure (freshState, ms, [])
  | .mdict => do
      let es ← match args with
        | [] => pure []
        | [.noneV] => pure ([] : Entries)
        | [.dictV es] => pure es
        | _ => throw (.typeError "ModuleDict expects a mapping of modules")
      validateKeyedLoadable es
      pure (freshState, [], es)

/-- `klass(*args, **kwargs)`: construct an instance.  If the class's effective
`__init__` is decorated by `save_args` (always so for `make_loadable`
wrappers), the argument snapshot is taken *first* — once, so any decorated
ancestor `__init__` further down the chain finds `_args` already present and
skips its own capture (modules.py 237-245) — and then the underlying
initializer chain runs. -/
def constructVal (fuel : Nat) (cls : PyClass) (args : List Val)
    (kwargs : Entries) : Except PyErr Val := do
  let cap ← if saveArgsP cls then do
      pure (some (← captureOf fuel args kwargs))
    else pure none
  let (st, ch, kch) ← initShape (kindOfP cls) args
  pure (.mod cls cap st ch kch)

/-- Registered importable classes: the (module path, qualified name) pairs
that resolve to a class in the running process. -/
abbrev Registry := List ((String × String) × PyClass)

/-- Modelled from the spec: `import_qualname` (imported from
`cassetta.io.utils`, a file not present under `src/`) maps a
`(module path, qualified name)` pair back to a concrete type handle, failing
when the pair cannot be relocated (spec §4.2: "map that pair back to a
concrete type handle.  Resolution failure (name not importable, module
missing) must surface a distinguishable 'type resolution' error").  Modelled
as a lookup in a registry of importable classes. -/
def importQualname (reg : Registry) (m q : String) : Option PyClass :=
  (reg.find? (fun e => e.1.1 == m && e.1.2 == q)).map (fun e => e.2)

/-- The `try: klass = import_qualname(state["module"], state["qualname"])`
body (modules.py 187-191): any failure — a missing key, a non-string value,
or an unimportable pair — lands in the `except` clause. -/
def importTry (reg : Registry) (es : Entries) : Option PyClass := do
  let mv ← dictGet es "module"
  let qv ← dictGet es "qualname"
  match mv, qv with
  | .strV m, .strV q => importQualname reg m q
  | _, _ => none

/-- Type resolution with the `except Exception: raise ImportError(...)`
re-raise (modules.py 192-198).  The `ImportError` message itself evaluates
`state["qualname"]` and `state["module"]`, so a key missing there raises
`KeyError` out of the handler. -/
def resolveImport (reg : Registry) (es : Entries) : Except PyErr PyClass :=
  match importTry reg es with
  | some k => pure k
  | none =>
      match dictGet es "qualname" with
      | none => throw (.keyError "qualname")
      | some q =>
          match dictGet es "module" with
          | none => throw (.keyError "module")
          | some m => throw (.importError q m)

/-- `*args` unpacking of the recursively deserialized `args` value in
`klass(*args, **kwargs)` (modules.py line 203). -/
def toStarArgs : Val → Except PyErr (List Val)
  | .tupleV xs => pure xs
  | .listV xs => pure xs
  | v => throw (.typeError ("argument unpacking requires a sequence, got "
      ++ classNameOfVal v))

/-- `**kwargs` unpacking (modules.py line 203). -/
def toStarKwargs : Val → Except PyErr Entries
  | .dictV es => pure es
  | v => throw (.typeError ("keyword argument unpacking requires a mapping, got "
      ++ classNameOfVal v))

/-- `obj.load_state_dict(state)` (modules.py line 208): replaces the
instance's mutable state with the saved blob.  (Shape mismatches inside
`torch` are outside this model.) -/
def loadStateDict (obj s : Val) : Val :=
  match obj with
  | .mod cls cap _ ch kch => .mod cls cap s ch kch
  | v => v

/-- `LoadableMixin._nested_unserialize` (modules.py lines 181-219).  A dict
carrying the `"cassetta.Loadable"` key is treated as a record: the class is
the supplied hint, or else is resolved from the record's `module`/`qualname`
fields; then — since `isinstance(klass, LoadableMixin)` is `False` for every
class object (a class is an instance of its metaclass, not of
`LoadableMixin`), the `if not isinstance(klass, LoadableMixin)` guard on line
199 always fires — the class is wrapped by `make_loadable`, the record's
`args` and `kwargs` are recursively deserialized (with no hint, as in the
source's bare recursive calls), the instance is constructed, and a `"state"`
entry, when present, is loaded into it.  Untagged dicts, lists and tuples are
rebuilt structurally; anything else is returned as-is. -/
def nestedUnserialize (reg : Registry) : Nat → Option PyClass → Val → Except PyErr Val
  | 0, _, _ => throw .recursionError
  | fuel+1, klass?, obj =>
      match obj with
      | .dictV es =>
          if dictMem es tagKey then do
            let klass ← match klass? with
              | some k => pure k
              | none => resolveImport reg es
            let klass := makeLoadable klass
            let argsV ← match dictGet es "args" with
              | some a => pure a
              | none => throw (.keyError "args")
            let args ← nestedUnserialize reg fuel none argsV
            let kwargsV ← match dictGet es "kwargs" with
              | some kv => pure kv
              | none => throw (.keyError "kwargs")
            let kwargs ← nestedUnserialize reg fuel none kwargsV
            let argsL ← toStarArgs args
            let kwargsE ← toStarKwargs kwargs
            let o ← constructVal fuel klass argsL kwargsE
            match dictGet es "state" with
            | some sv => pure (loadStateDict o sv)
            | none => pure o
          else do
            pure (.dictV (← mapKE (nestedUnserialize reg fuel none) es))
      | .listV xs => do pure (.listV (← mapE (nestedUnserialize reg fuel none) xs))
      | .tupleV xs => do pure (.tupleV (← mapE (nestedUnserialize reg fuel none) xs))
      | v => pure v

/-! ## The `save_args` capture discipline along a cooperative `__init__` chain

`save_args` (modules.py lines 221-247) decorates an individual `__init__`.
When a subclass instance is constructed, Python runs the leaf `__init__`
first; each initializer may call `super().__init__(...)` with arguments of its
own choosing.  We model the chain as the list of calls in execution order
(leaf first), each with the arguments it received and whether it was
decorated, and thread the instance's `_args`/`_kwargs` attribute through it,
counting how many times a capture is written. -/

/-- One `__init__` call in a cooperative constructor chain: the arguments it
received, and whether it is decorated with `@LoadableMixin.save_args`. -/
structure InitCall where
  args : List Val
  kwargs : Entries
  isWrapped : Bool

/-- The body of the wrapper installed by `save_args` (modules.py 237-245),
acting on the instance's current `_args`/`_kwargs` attribute: when absent
(`not hasattr(self, "_args")`), store the serialized snapshot of the call's
arguments; otherwise leave the existing record alone.  Returns the updated
attribute and whether this call wrote it. -/
def saveArgsStep (fuel : Nat) (cap : Option (List Val × Entries))
    (args : List Val) (kwargs : Entries) :
    Except PyErr (Option (List Val × Entries) × Bool) :=
  match cap with
  | some c => pure (some c, false)
  | none => do pure (some (← captureOf fuel args kwargs), true)

/-- Run a cooperative `__init__` chain over the instance's capture attribute,
returning the final attribute and the number of capture writes. -/
def runInitChain (fuel : Nat) :
    Option (List Val × Entries) → List InitCall →
    Except PyErr (Option (List Val × Entries) × Nat)
  | cap, [] => pure (cap, 0)
  | cap, c :: rest => do
      let (cap1, wrote) ←
        if c.isWrapped then saveArgsStep fuel cap c.args c.kwargs
        else pure (cap, false)
      let (cap2, n) ← runInitChain fuel cap1 rest
      pure (cap2, (if wrote then 1 else 0) + n)

/-! ## Container mutation operations

`LoadableSequential.append/extend/insert` (modules.py 464-474) and
`LoadableModuleList.append/extend/insert` (modules.py 493-503) have identical
bodies — validate, then delegate to the `torch` container — so each pair is
modelled once.  `LoadableModuleDict.__setitem__` is at modules.py 525-527.
The mutated container is returned; an error means the exception propagated
before the underlying `torch` mutation ran, leaving the container as it
was. -/

/-- The underlying `nn` container append (`super().append(module)`). -/
def addChild (self m : Val) : Val :=
  match self with
  | .mod cls cap st ch kch => .mod cls cap st (ch ++ [m]) kch
  | v => v

/-- `LoadableSequential.append` / `LoadableModuleList.append`. -/
def containerAppend (self m : Val) : Except PyErr Val := do
  validateLoadableModule m
  pure (addChild self m)

/-- `LoadableSequential.extend` / `LoadableModuleList.extend`: every element
of the batch is validated before the underlying container is touched. -/
def containerExtend (self : Val) (ms : List Val) : Except PyErr Val := do
  validateLoadableModules ms
  pure (ms.foldl addChild self)

/-- The underlying `nn` container insert (index arithmetic is `torch`'s
business; the position is clamped to the child count here). -/
def insertChild (self : Val) (i : Nat) (m : Val) : Val :=
  match self with
  | .mod cls cap st ch kch => .mod cls cap st (ch.insertIdx (min i ch.length) m) kch
  | v => v

/-- `LoadableSequential.insert` / `LoadableModuleList.insert`. -/
def containerInsert (self : Val) (i : Nat) (m : Val) : Except PyErr Val := do
  validateLoadableModule m
  pure (insertChild self i m)

/-- The underlying keyed update (`super().__setitem__(key, module)`). -/
def setKChild (self : Val) (k : String) (m : Val) : Val :=
  match self with
  | .mod cls cap st ch kch => .mod cls cap st ch (dictSet kch k m)
  | v => v

/-- `LoadableModuleDict.__setitem__`. -/
def moduleDictSetItem (self : Val) (k : String) (m : Val) : Except PyErr Val := do
  validateLoadableModule m
  pure (setKChild self k m)

/-! ## `LoadableMixin.save` -/

/-- Whether the instance has a stored capture record (`hasattr(self, "_args")`). -/
def hasCaptured : Val → Bool
  | .mod _ cap _ _ _ => cap.isSome
  | _ => false

/-- `len(signature(self.__init__).parameters)` for the instance — the bound
method's signature, which does not include `self`. -/
def initNumParamsOf : Val → Nat
  | .mod cls _ _ _ _ => initNumParamsP cls
  | _ => 0

/-- `LoadableMixin.save` (modules.py lines 271-287): emit the (non-fatal)
warning when the instance has no `_args` attribute and
`len(signature(self.__init__).parameters) > 1`, then hand `self.serialize()`
to `torch.save` unconditionally.  Returns the warning flag together with the
record that is persisted. -/
def saveVal (fuel : Nat) (v : Val) : Bool × Except PyErr Val :=
  let numParams := initNumParamsOf v
  let warned := !hasCaptured v && decide (numParams > 1)
  (warned, serializeVal fuel v)

/-! ## Heap-level model of the argument snapshot

`_nested_serialize` rebuilds lists, tuples and dicts (`type(obj)(map(...))`
creates new objects) but returns every other non-module value — notably
tensors and parameters — as-is, i.e. by reference.  Whether the stored
`_args`/`_kwargs` snapshot can be corrupted by later in-place mutation of an
argument is a question about object identity, which the pure model erases, so
here the same traversal is modelled over an explicit heap.  Modules are
outside this fragment (their conversion builds a fresh record dict, so they
introduce no sharing); the value grammar is: immediate ints, and references
to heap objects — mutable lists, mutable dicts, immutable-but-rebuilt tuples,
and tensors, whose payload (`ver`) stands for their numeric contents and is
bumped by in-place mutation. -/

/-- A Python value at the heap level: an immediate, or a reference. -/
inductive HVal where
  | iV (n : Int)
  | ref (a : Nat)
deriving DecidableEq

/-- A heap object. -/
inductive HObj where
  | hlist (xs : List HVal)
  | htuple (xs : List HVal)
  | hdict (es : List (String × HVal))
  | htensor (ver : Nat)

/-- The heap: object at address `a` is `objs[a]`; allocation appends. -/
structure Heap where
  objs : List HObj

/-- Dereference an address. -/
def Heap.get (h : Heap) (a : Nat) : Option HObj := h.objs[a]?

/-- Allocate a fresh object, returning the new heap and the fresh address. -/
def Heap.alloc (h : Heap) (o : HObj) : Heap × Nat :=
  (⟨h.objs ++ [o]⟩, h.objs.length)

/-- In-place mutation of the object at an (existing) address. -/
def Heap.mutate (h : Heap) (a : Nat) (o : HObj) : Heap := ⟨h.objs.set a o⟩

/-- Whether the object at an address is one of the container kinds that
`_nested_serialize` rebuilds. -/
def containerAt (h : Heap) (a : Nat) : Bool :=
  match h.get a with
  | some (.hlist _) => true
  | some (.htuple _) => true
  | some (.hdict _) => true
  | _ => false

/-- Error-propagating, heap-threading map for the heap serializer. -/
def hMapE (f : Heap → HVal → Except PyErr (Heap × HVal)) :
    Heap → List HVal → Except PyErr (Heap × List HVal)
  | h, [] => pure (h, [])
  | h, v :: vs => do
      let (h1, w) ← f h v
      let (h2, ws) ← hMapE f h1 vs
      pure (h2, w :: ws)

/-- Keyed version of `hMapE`. -/
def hMapKE (f : Heap → HVal → Except PyErr (Heap × HVal)) :
    Heap → List (String × HVal) → Except PyErr (Heap × List (String × HVal))
  | h, [] => pure (h, [])
  | h, (k, v) :: es => do
      let (h1, w) ← f h v
      let (h2, ws) ← hMapKE f h1 es
      pure (h2, (k, w) :: ws)

/-- `_nested_serialize` over the heap (the non-module fragment of
modules.py lines 160-179): lists, tuples and dicts are traversed and a *new*
object is allocated for the converted copy (`type(obj)(map(...))`); a tensor
reference is returned unchanged — the snapshot aliases the argument's tensor.
A dangling reference cannot arise from a real Python object graph and is
reported as an error. -/
def hSerialize : Nat → Heap → HVal → Except PyErr (Heap × HVal)
  | 0, _, _ => throw .recursionError
  | fuel+1, h, v =>
      match v with
      | .iV n => pure (h, .iV n)
      | .ref a =>
          match h.get a with
          | none => throw (.attributeError "dangling reference")
          | some (.htensor _) => pure (h, .ref a)
          | some (.hlist xs) => do
              let (h1, ys) ← hMapE (hSerialize fuel) h xs
              let (h2, b) := h1.alloc (.hlist ys)
              pure (h2, .ref b)
          | some (.htuple xs) => do
              let (h1, ys) ← hMapE (hSerialize fuel) h xs
              let (h2, b) := h1.alloc (.htuple ys)
              pure (h2, .ref b)
          | some (.hdict es) => do
              let (h1, fs) ← hMapKE (hSerialize fuel) h es
              let (h2, b) := h1.alloc (.hdict fs)
              pure (h2, .ref b)

/-- The pure tree a heap value denotes (what an observer reading the
snapshot sees); tensors read as their current numeric contents. -/
inductive PVal where
  | iV (n : Int)
  | lV (xs : List PVal)
  | tV (xs : List PVal)
  | dV (es : List (String × PVal))
  | tensorV (ver : Nat)

/-- Option-propagating map for `hRead`. -/
def oMapE (f : HVal → Option PVal) : List HVal → Option (List PVal)
  | [] => some []
  | v :: vs => do pure ((← f v) :: (← oMapE f vs))

/-- Keyed version of `oMapE`. -/
def oMapKE (f : HVal → Option PVal) :
    List (String × HVal) → Option (List (String × PVal))
  | [] => some []
  | (k, v) :: es => do pure ((k, ← f v) :: (← oMapKE f es))

/-- Read a heap value out to the pure tree it denotes. -/
def hRead : Nat → Heap → HVal → Option PVal
  | 0, _, _ => none
  | fuel+1, h, v =>
      match v with
      | .iV n => some (.iV n)
      | .ref a =>
          match h.get a with
          | none => none
          | some (.htensor ver) => some (.tensorV ver)
          | some (.hlist xs) => (oMapE (hRead fuel h) xs).map .lV
          | some (.htuple xs) => (oMapE (hRead fuel h) xs).map .tV
          | some (.hdict es) => (oMapKE (hRead fuel h) es).map .dV

/-- `h'` extends `h`: nothing below `h`'s allocation frontier changed. -/
def HeapExt (h h' : Heap) : Prop :=
  h.objs.length ≤ h'.objs.length ∧
    ∀ a, a < h.objs.length → h'.get a = h.get a

/-- Transitive reachability of a heap address from a value: the addresses an
observer of the value can touch. -/
inductive Points (h : Heap) : HVal → Nat → Prop where
  | here (a : Nat) : Points h (.ref a) a
  | listElem {a : Nat} {xs : List HVal} {x : HVal} {b : Nat} :
      h.get a = some (.hlist xs) → x ∈ xs → Points h x b → Points h (.ref a) b
  | tupleElem {a : Nat} {xs : List HVal} {x : HVal} {b : Nat} :
      h.get a = some (.htuple xs) → x ∈ xs → Points h x b → Points h (.ref a) b
  | dictElem {a : Nat} {es : List (String × HVal)} {k : String} {x : HVal} {b : Nat} :
      h.get a = some (.hdict es) → (k, x) ∈ es → Points h x b → Points h (.ref a) b

/-- Every address reachable from `w` is allocated in `h'`, and every reachable
*container* address is at or above the frontier `n` (i.e. was freshly
allocated past it). -/
def GoodOut (n : Nat) (h' : Heap) (w : HVal) : Prop :=
  ∀ b, Points h' w b → b < h'.objs.length ∧ (containerAt h' b = true → n ≤ b)

/-! ## Auxiliary predicates and concrete scenario data -/

/-- Values containing no `nn.Module` instance at any position that
`_nested_serialize` traverses (module instances inside a non-`nn.Module`
loadable are not traversed, so such a loadable counts as a leaf here). -/
inductive NNFree : Val → Prop where
  | intF (n : Int) : NNFree (.intV n)
  | strF (s : String) : NNFree (.strV s)
  | boolF (b : Bool) : NNFree (.boolV b)
  | noneF : NNFree .noneV
  | tensorF (id : Nat) (p : Bool) : NNFree (.tensor id p)
  | modF {cls : PyClass} {cap : Option (List Val × Entries)} {st : Val}
      {ch : List Val} {kch : Entries} :
      isNNP cls = false → NNFree (.mod cls cap st ch kch)
  | listF {xs : List Val} : (∀ x ∈ xs, NNFree x) → NNFree (.listV xs)
  | tupleF {xs : List Val} : (∀ x ∈ xs, NNFree x) → NNFree (.tupleV xs)
  | dictF {es : Entries} : (∀ kv ∈ es, NNFree kv.2) → NNFree (.dictV es)

/-- A user-defined loadable model class with a `save_args`-decorated
`__init__`, registered (importable) in the running process. -/
def demoClass : ClassCore :=
  ⟨"mypkg.models", "MyModel", "MyModel", .generic, true, true, 2⟩

/-- The registry in which `demoClass` is importable. -/
def demoReg : Registry := [(("mypkg.models", "MyModel"), .base demoClass)]

/-- An instance of `demoClass` built as `MyModel(5)`, with one learned
tensor in its state dict. -/
def demoGraph : Val :=
  .mod (.base demoClass) (some ([.intV 5], []))
    (.dictV [("w", .tensor 0 true)]) [] []

/-- A loadable class whose (undecorated) `__init__` takes exactly one
parameter beyond `self`. -/
def oneArgClass : ClassCore :=
  ⟨"mypkg.models", "OneArg", "OneArg", .generic, false, true, 1⟩

/-- An instance of `oneArgClass`: no capture record was stored, yet
reconstruction would need the one constructor argument. -/
def oneArgNode : Val := .mod (.base oneArgClass) none (.dictV []) [] []

/-- `LoadableSequential` itself, as a class a caller may hand to
`make_loadable` (it is an `nn.Module` subclass). -/
def seqClassCore : ClassCore :=
  ⟨"cassetta.io.modules", "LoadableSequential", "LoadableSequential",
   .seq, false, true, 1⟩

/-- A non-`LoadableMixin` `nn.Module` instance (e.g. a bare `nn.Conv2d`). -/
def plainConv : Val :=
  .plainMod ⟨"torch.nn.modules.conv", "Conv2d", "Conv2d", .generic, false, true, 3⟩

/-- A `LoadableSequential` holding one loadable child. -/
def demoSeq : Val := .mod (.base seqClassCore) none freshState [demoGraph] []

/-! # Theorems -/

/-- Reducing a bind whose first action already succeeded. -/
theorem except_bind_ok {ε α β : Type} (a : α) (f : α → Except ε β) :
    (Except.ok a >>= f : Except ε β) = f a := rfl

/-- Reducing a bind whose first action already failed. -/
theorem except_bind_error {ε α β : Type} (e : ε) (f : α → Except ε β) :
    (Except.error e >>= f : Except ε β) = .error e := rfl

/-- Mapping over a successful result. -/
theorem except_map_ok {ε α β : Type} (a : α) (f : α → β) :
    (f <$> (Except.ok a : Except ε α) : Except ε β) = .ok (f a) := rfl

/-- Mapping over a failure. -/
theorem except_map_error {ε α β : Type} (e : ε) (f : α → β) :
    (f <$> (Except.error e : Except ε α) : Except ε β) = .error e := rfl

/-- `throw` in the `Except` monad is `Except.error`. -/
theorem except_throw {ε α : Type} (e : ε) : (throw e : Except ε α) = .error e := rfl

/-- Every `Val` constructor has positive size. -/
theorem val_sizeOf_pos : ∀ v : Val, 0 < sizeOf v := by
  intro v
  cases v <;> simp_arith

/-- `mapE` is the identity on lists whose elements the function fixes. -/
theorem mapE_congr_ok (g : Val → Except PyErr Val) :
    ∀ xs : List Val, (∀ x ∈ xs, g x = .ok x) → mapE g xs = .ok xs := by
  intro xs h
  induction xs with
  | nil => rfl
  | cons a tl ih =>
      have ha := h a (List.mem_cons_self a tl)
      have htl := ih (fun x hx => h x (List.mem_cons_of_mem a hx))
      simp [mapE, ha, htl, except_bind_ok]

/-- `mapKE` is the identity on entries whose values the function fixes. -/
theorem mapKE_congr_ok (g : Val → Except PyErr Val) :
    ∀ es : Entries, (∀ kv ∈ es, g kv.2 = .ok kv.2) → mapKE g es = .ok es := by
  intro es h
  induction es with
  | nil => rfl
  | cons kv tl ih =>
      obtain ⟨k, v⟩ := kv
      have ha := h (k, v) (List.mem_cons_self _ tl)
      have htl := ih (fun x hx => h x (List.mem_cons_of_mem _ hx))
      simp [mapKE, ha, htl, except_bind_ok]

/-- C1.  Deserializing the serialization of the registered one-node graph
`demoGraph` (built as `MyModel(5)`) reproduces its captured argument values
and its mutable state, but the reconstructed node's concrete type is the
freshly synthesized `make_loadable` wrapper of `MyModel`, not `MyModel`
itself: `_nested_unserialize` tests `isinstance(klass, LoadableMixin)` on the
resolved *class object*, which is always false, so every load re-wraps the
class.  This contradicts the round-trip claim (and §4.2/§4.4 of the spec,
which wrap only when the resolved type is "not already a LoadableNode family
member"), exhibiting the slip at a concrete input. -/
theorem load_wraps_type_bug :
    (do
      let r ← serializeVal 9 demoGraph
      nestedUnserialize demoReg 9 none r) =
      .ok (.mod (.wrapped (.base demoClass)) (some ([.intV 5], []))
            (.dictV [("w", .tensor 0 true)]) [] []) ∧
    demoGraph = .mod (.base demoClass) (some ([.intV 5], []))
            (.dictV [("w", .tensor 0 true)]) [] [] ∧
    PyClass.wrapped (.base demoClass) ≠ .base demoClass :=
  ⟨rfl, rfl, by decide⟩

/-- C3 counterexample.  A record whose version tag value `"0.0"` differs from
the engine's supported version `"1.0"` is loaded without any error: the tag is
used only as a presence discriminator and its value is never compared, so the
object is fully constructed. -/
theorem version_mismatch_loads_anyway :
    ("0.0" : String) ≠ loadableVersion ∧
    nestedUnserialize demoReg 9 none (.dictV
      [(tagKey, .strV "0.0"), ("module", .strV "mypkg.models"),
       ("qualname", .strV "MyModel"), ("args", .tupleV []),
       ("kwargs", .dictV []), ("state", .dictV [])]) =
    .ok (.mod (.wrapped (.base demoClass)) (some ([], [])) (.dictV []) [] []) :=
  ⟨by decide, rfl⟩

/-- C3 amended.  The value stored under the `"cassetta.Loadable"` key is
never consulted by deserialization: replacing it by any other value gives the
identical result (in particular, no version comparison is performed and no
version-mismatch error can be raised).  Only the key's *presence* acts as the
record discriminator. -/
theorem version_value_ignored (reg : Registry) (fuel : Nat) (k : Option PyClass)
    (v1 v2 : Val) (rest : Entries) :
    nestedUnserialize reg fuel k (.dictV ((tagKey, v1) :: rest)) =
    nestedUnserialize reg fuel k (.dictV ((tagKey, v2) :: rest)) := by
  cases fuel with
  | zero => rfl
  | succ f => rfl

/-- C6.  Serializing a `LoadableOptimizer`-family instance whose first
captured positional argument is a parameter reference (an `nn.Parameter` or
`torch.Tensor`) yields a record whose `args` entry starts with an empty-list
placeholder in place of the parameter data, while the optimizer's own running
state (`self.state_dict()`) still appears under `"state"`. -/
theorem optimizer_param_exclusion (m q n : String) (sa nn : Bool) (np tid : Nat)
    (p : Bool) (rest : List Val) (kw : Entries) (st : Val) (fuel : Nat) :
    serializeVal (fuel+1)
      (.mod (.base ⟨m, q, n, .optim, sa, nn, np⟩)
        (some (.tensor tid p :: rest, kw)) st [] []) =
    .ok (.dictV [(tagKey, .strV loadableVersion), ("module", .strV m),
      ("qualname", .strV q), ("args", .listV (.listV [] :: rest)),
      ("kwargs", .dictV kw), ("state", st)]) := rfl

/-- C7 counterexample.  `oneArgNode` has no capture record and its
constructor requires one parameter beyond `self` (more than zero), yet `save`
emits no warning: the code's guard is `num_params > 1` on the *bound*
signature, which already excludes `self`, so one-argument constructors are
missed. -/
theorem save_warning_threshold_cex :
    (saveVal 3 oneArgNode).1 = false ∧
    hasCaptured oneArgNode = false ∧
    0 < initNumParamsOf oneArgNode := by
  refine ⟨rfl, rfl, by decide⟩

/-- C7 amended.  `save` warns exactly when the node has no stored capture
record and its (bound) constructor signature has *more than one* parameter
beyond `self`; and regardless of the warning, the record handed to
`torch.save` is always the node's serialization. -/
theorem save_warning_iff_two_params (fuel : Nat) (v : Val) :
    ((saveVal fuel v).1 = true ↔ hasCaptured v = false ∧ 1 < initNumParamsOf v) ∧
    (saveVal fuel v).2 = serializeVal fuel v := by
  refine ⟨?_, rfl⟩
  simp [saveVal, Bool.and_eq_true, Bool.not_eq_true']

/-- C8 counterexample.  `K = LoadableSequential` is an `nn.Module` subclass,
but an instance of `make_loadable(K)` serializes with the *wrapper's* own
`module`/`qualname` (`"LoadableLoadableSequential"` in `cassetta.io.modules`),
not `K`'s: the container `serialize` overrides use `type(self).__qualname__`
directly and never unwrap the dynamic class. -/
theorem make_loadable_container_tag_cex :
    serializeVal 3
      (.mod (.wrapped (.base seqClassCore)) (some ([], [])) freshState [] []) =
      .ok (.dictV [(tagKey, .strV loadableVersion), ("module", .strV dynModule),
        ("qualname", .strV "LoadableLoadableSequential"), ("args", .listV []),
        ("kwargs", .dictV [])]) ∧
    ("LoadableLoadableSequential" : String) ≠ seqClassCore.qualname :=
  ⟨rfl, by decide⟩

/-- C8 amended.  For a class `K` that does not override the default
`serialize` — the generic family, and the optimizer family, whose override
delegates to the default — an instance of `make_loadable(K)` serializes with
the `module` and `qualname` of the original class `K` (the default serializer
replaces the wrapper by `klass.__bases__[-1]`); the container families, whose
overrides read `type(self)` directly, are the exception established by the
counterexample. -/
theorem make_loadable_tag_original :
    (∀ (m q n : String) (sa nn : Bool) (np : Nat) (a : List Val) (k : Entries)
       (st : Val) (fuel : Nat),
      serializeVal (fuel+1)
        (.mod (.wrapped (.base ⟨m, q, n, .generic, sa, nn, np⟩))
          (some (a, k)) st [] []) =
      .ok (.dictV [(tagKey, .strV loadableVersion), ("module", .strV m),
        ("qualname", .strV q), ("args", .tupleV a), ("kwargs", .dictV k),
        ("state", st)])) ∧
    (∀ (m q n : String) (sa nn : Bool) (np : Nat)
       (cap : Option (List Val × Entries)) (st : Val) (fuel : Nat),
      serializeVal (fuel+1)
        (.mod (.wrapped (.base ⟨m, q, n, .optim, sa, nn, np⟩)) cap st [] []) =
        .ok (.dictV (optimRecord
          (.wrapped (.base ⟨m, q, n, .optim, sa, nn, np⟩)) cap st)) ∧
      dictGet (optimRecord (.wrapped (.base ⟨m, q, n, .optim, sa, nn, np⟩)) cap st)
          "module" = some (.strV m) ∧
      dictGet (optimRecord (.wrapped (.base ⟨m, q, n, .optim, sa, nn, np⟩)) cap st)
          "qualname" = some (.strV q)) :=
  ⟨fun _ _ _ _ _ _ _ _ _ _ => rfl, fun _ _ _ _ _ _ _ _ _ => ⟨rfl, rfl, rfl⟩⟩

/-- C10 counterexample.  A type-resolution error *can* occur even when a
concrete class hint is supplied: the hint short-circuits resolution only for
the top-level record, while records nested inside its `args` are deserialized
with no hint, so an unimportable nested type raises `ImportError` despite the
hint. -/
theorem hint_nested_resolution_error_cex :
    nestedUnserialize [] 9 (some (.base demoClass)) (.dictV
      [(tagKey, .strV "1.0"),
       ("args", .tupleV [.dictV [(tagKey, .strV "1.0"),
         ("module", .strV "ghost"), ("qualname", .strV "Ghost"),
         ("args", .tupleV []), ("kwargs", .dictV [])]]),
       ("kwargs", .dictV [])]) =
    .error (.importError (.strV "Ghost") (.strV "ghost")) := rfl

/-- C10 amended.  When a concrete class hint is supplied, deserialization of
a tagged record consults only its `args`, `kwargs` and `state` entries: two
tagged records agreeing on those lookups — whatever their `module` and
`qualname` fields hold, including their being absent or unimportable — load
identically, so the *top-level* record's type fields can cause no resolution
error; nested untrusted records (deserialized without hint, per the
counterexample) are the only remaining source of resolution errors. -/
theorem hint_ignores_type_fields (reg : Registry) (fuel : Nat) (k : PyClass)
    (es es' : Entries)
    (h1 : dictMem es tagKey = true) (h2 : dictMem es' tagKey = true)
    (ha : dictGet es "args" = dictGet es' "args")
    (hk : dictGet es "kwargs" = dictGet es' "kwargs")
    (hs : dictGet es "state" = dictGet es' "state") :
    nestedUnserialize reg fuel (some k) (.dictV es) =
    nestedUnserialize reg fuel (some k) (.dictV es') := by
  cases fuel with
  | zero => rfl
  | succ f =>
      simp only [nestedUnserialize, h1, h2, ha, hk, hs, if_true]

/-- Witness for C10 amended: a record whose `module`/`qualname` name an
unimportable ghost type and a record with no type fields at all load
identically under a hint. -/
theorem hint_ignores_type_fields_witness :
    nestedUnserialize [] 5 (some (.base demoClass)) (.dictV
      [(tagKey, .strV "1.0"), ("module", .strV "no.such.module"),
       ("qualname", .strV "Ghost"), ("args", .tupleV []), ("kwargs", .dictV [])]) =
    nestedUnserialize [] 5 (some (.base demoClass)) (.dictV
      [(tagKey, .strV "1.0"), ("args", .tupleV []), ("kwargs", .dictV [])]) :=
  hint_ignores_type_fields [] 5 (.base demoClass) _ _ rfl rfl rfl rfl rfl

/-- A chain entered with a capture record already on the instance never
rewrites it and never counts another write: every `save_args` wrapper sees
`hasattr(self, "_args")` succeed and skips. -/
theorem runInitChain_keeps (fuel : Nat) (c : List Val × Entries) :
    ∀ chain : List InitCall, runInitChain fuel (some c) chain = .ok (some c, 0) := by
  intro chain
  induction chain with
  | nil => rfl
  | cons hd tl ih =>
      by_cases hw : hd.isWrapped
      · simp [runInitChain, hw, saveArgsStep, ih, except_bind_ok, except_map_ok]
      · simp [runInitChain, hw, ih, except_bind_ok, except_map_ok]

/-- C2.  Constructing an instance through a cooperative chain of `__init__`
calls, each decorated by `save_args`, stores exactly one capture record — the
write count is 1 — and the record is the serialized snapshot of the arguments
the *leaf* (first-running, most-derived) initializer received, never those an
ancestor passed to its own `super().__init__`. -/
theorem save_args_captures_leaf_once (fuel : Nat) (leaf : InitCall)
    (rest : List InitCall) (capA : List Val) (capK : Entries)
    (hleaf : leaf.isWrapped = true)
    (_hrest : ∀ c ∈ rest, c.isWrapped = true)
    (hcap : captureOf fuel leaf.args leaf.kwargs = .ok (capA, capK)) :
    runInitChain fuel none (leaf :: rest) = .ok (some (capA, capK), 1) := by
  simp [runInitChain, hleaf, saveArgsStep, hcap, runInitChain_keeps,
    except_bind_ok, except_map_ok]

/-- Witness for C2: a two-deep decorated chain — leaf called as
`(1, k=2)`, its ancestor called as `(7)` — stores the leaf's arguments,
once. -/
theorem save_args_captures_leaf_once_witness :
    runInitChain 3 none
      [⟨[.intV 1], [("k", .intV 2)], true⟩, ⟨[.intV 7], [], true⟩] =
    .ok (some ([.intV 1], [("k", .intV 2)]), 1) :=
  save_args_captures_leaf_once 3 ⟨[.intV 1], [("k", .intV 2)], true⟩
    [⟨[.intV 7], [], true⟩] [.intV 1] [("k", .intV 2)] rfl
    (by intro c hc; have := List.mem_singleton.mp hc; subst this; rfl) rfl

/-- C4.  `_nested_serialize` raises a `TypeError` naming the offending type
on every `nn.Module` that is not a `LoadableMixin`; and every value free of
`nn.Module` instances (primitives, tensors, non-`nn` loadables, and lists,
tuples and dicts thereof) is recursed or passed through unchanged, never
triggering that error. -/
theorem nested_serialize_type_gate :
    (∀ (fuel : Nat) (c : ClassCore),
        nestedSerialize (fuel+1) (.plainMod c) = .error (.typeError
          ("Only loadable modules (which inherit from LoadableMixin) can "
           ++ "be serialized. Type " ++ c.qualname ++ " does not."))) ∧
    (∀ (v : Val) (fuel : Nat), NNFree v → sizeOf v ≤ fuel →
        nestedSerialize fuel v = .ok v) := by
  constructor
  · intro fuel c; rfl
  · intro v fuel hv
    induction hv generalizing fuel with
    | intF n =>
        intro hsz
        obtain ⟨f, rfl⟩ : ∃ f, fuel = f + 1 :=
          ⟨fuel - 1, by have := val_sizeOf_pos (.intV n); omega⟩
        rfl
    | strF s =>
        intro hsz
        obtain ⟨f, rfl⟩ : ∃ f, fuel = f + 1 :=
          ⟨fuel - 1, by have := val_sizeOf_pos (.strV s); omega⟩
        rfl
    | boolF b =>
        intro hsz
        obtain ⟨f, rfl⟩ : ∃ f, fuel = f + 1 :=
          ⟨fuel - 1, by have := val_sizeOf_pos (.boolV b); omega⟩
        rfl
    | noneF =>
        intro hsz
        obtain ⟨f, rfl⟩ : ∃ f, fuel = f + 1 :=
          ⟨fuel - 1, by have := val_sizeOf_pos .noneV; omega⟩
        rfl
    | tensorF i p =>
        intro hsz
        obtain ⟨f, rfl⟩ : ∃ f, fuel = f + 1 :=
          ⟨fuel - 1, by have := val_sizeOf_pos (.tensor i p); omega⟩
        rfl
    | modF hnn =>
        intro hsz
        rename_i cls cap st ch kch
        obtain ⟨f, rfl⟩ : ∃ f, fuel = f + 1 :=
          ⟨fuel - 1, by have := val_sizeOf_pos (.mod cls cap st ch kch); omega⟩
        simp [nestedSerialize, hnn, pure, Except.pure]
    | listF hall ih =>
        intro hsz
        rename_i xs
        obtain ⟨f, rfl⟩ : ∃ f, fuel = f + 1 :=
          ⟨fuel - 1, by have := val_sizeOf_pos (.listV xs); omega⟩
        have hmap : mapE (nestedSerialize f) xs = .ok xs := by
          apply mapE_congr_ok
          intro x hx
          apply ih x hx
          have h1 : sizeOf x < sizeOf xs := List.sizeOf_lt_of_mem hx
          have h2 : sizeOf (Val.listV xs) = 1 + sizeOf xs := by simp
          omega
        simp [nestedSerialize, hmap, except_bind_ok]
    | tupleF hall ih =>
        intro hsz
        rename_i xs
        obtain ⟨f, rfl⟩ : ∃ f, fuel = f + 1 :=
          ⟨fuel - 1, by have := val_sizeOf_pos (.tupleV xs); omega⟩
        have hmap : mapE (nestedSerialize f) xs = .ok xs := by
          apply mapE_congr_ok
          intro x hx
          apply ih x hx
          have h1 : sizeOf x < sizeOf xs := List.sizeOf_lt_of_mem hx
          have h2 : sizeOf (Val.tupleV xs) = 1 + sizeOf xs := by simp
          omega
        simp [nestedSerialize, hmap, except_bind_ok]
    | dictF hall ih =>
        intro hsz
        rename_i es
        obtain ⟨f, rfl⟩ : ∃ f, fuel = f + 1 :=
          ⟨fuel - 1, by have := val_sizeOf_pos (.dictV es); omega⟩
        have hmap : mapKE (nestedSerialize f) es = .ok es := by
          apply mapKE_congr_ok
          intro kv hkv
          apply ih kv hkv
          have h1 : sizeOf kv < sizeOf es := List.sizeOf_lt_of_mem hkv
          have h2 : sizeOf (Val.dictV es) = 1 + sizeOf es := by simp
          have h3 : sizeOf kv.2 < sizeOf kv := by
            obtain ⟨k, v⟩ := kv; simp
          omega
        simp [nestedSerialize, hmap, except_bind_ok]

/-- Witness for C4: a module-free list passes through `_nested_serialize`
unchanged and without error. -/
theorem nested_serialize_type_gate_witness :
    nestedSerialize 999 (.listV [.intV 3, .noneV]) = .ok (.listV [.intV 3, .noneV]) :=
  nested_serialize_type_gate.2 (.listV [.intV 3, .noneV]) 999
    (NNFree.listF (by
      intro x hx
      rcases List.mem_cons.mp hx with rfl | hx2
      · exact NNFree.intF 3
      · have := List.mem_singleton.mp hx2
        subst this
        exact NNFree.noneF))
    (by decide)

/-- Failing the whole validation loop at the first non-conforming element:
`validate_loadable_modules` inspects the batch before any mutation. -/
theorem validateLoadableModules_fail (pre : List Val) (bad : Val) (post : List Val)
    (hpre : ∀ g ∈ pre, isLoadableVal g = true) (hbad : isLoadableVal bad = false) :
    validateLoadableModules (pre ++ bad :: post) = .error (.typeError
      ("Only Loadable modules can be added. '" ++ classNameOfVal bad
        ++ "' is not a LoadableMixin.")) := by
  induction pre with
  | nil =>
      simp [validateLoadableModules, validateLoadableModule, hbad, except_throw,
        except_bind_error]
  | cons g tl ih =>
      have hg := hpre g (List.mem_cons_self g tl)
      have htl := ih (fun x hx => hpre x (List.mem_cons_of_mem g hx))
      simp [validateLoadableModules, validateLoadableModule, hg, htl, except_bind_ok]

/-- C5.  Every mutation operation of every container variant — `append`,
`insert` and `extend` on `LoadableSequential`/`LoadableModuleList` (whose
bodies are identical) and keyed `__setitem__` on `LoadableModuleDict` —
raises a `TypeError` when handed a child that is not a `LoadableMixin`,
before the underlying `torch` container is touched, so no mutated container
is produced; for `extend` this holds for a batch whose non-conforming element
sits behind any number of conforming ones. -/
theorem container_mutation_conformance :
    (∀ (self m : Val), isLoadableVal m = false →
      containerAppend self m = .error (.typeError
        ("Only Loadable modules can be added. '" ++ classNameOfVal m
          ++ "' is not a LoadableMixin."))) ∧
    (∀ (self m : Val) (i : Nat), isLoadableVal m = false →
      containerInsert self i m = .error (.typeError
        ("Only Loadable modules can be added. '" ++ classNameOfVal m
          ++ "' is not a LoadableMixin."))) ∧
    (∀ (self : Val) (k : String) (m : Val), isLoadableVal m = false →
      moduleDictSetItem self k m = .error (.typeError
        ("Only Loadable modules can be added. '" ++ classNameOfVal m
          ++ "' is not a LoadableMixin."))) ∧
    (∀ (self : Val) (pre : List Val) (bad : Val) (post : List Val),
      (∀ g ∈ pre, isLoadableVal g = true) → isLoadableVal bad = false →
      containerExtend self (pre ++ bad :: post) = .error (.typeError
        ("Only Loadable modules can be added. '" ++ classNameOfVal bad
          ++ "' is not a LoadableMixin."))) := by
  refine ⟨?_, ?_, ?_, ?_⟩
  · intro self m hm
    simp [containerAppend, validateLoadableModule, hm, except_throw,
      except_bind_error, except_map_error]
  · intro self m i hm
    simp [containerInsert, validateLoadableModule, hm, except_throw,
      except_bind_error, except_map_error]
  · intro self k m hm
    simp [moduleDictSetItem, validateLoadableModule, hm, except_throw,
      except_bind_error, except_map_error]
  · intro self pre bad post hpre hbad
    simp [containerExtend, validateLoadableModules_fail pre bad post hpre hbad,
      except_bind_error, except_map_error]

/-- Witness for C5: a bare (non-loadable) `nn.Conv2d` is rejected by all
four operations on concrete containers, including an `extend` batch whose
first element conforms. -/
theorem container_mutation_conformance_witness :
    containerAppend demoSeq plainConv = .error (.typeError
      ("Only Loadable modules can be added. '" ++ classNameOfVal plainConv
        ++ "' is not a LoadableMixin.")) ∧
    containerInsert demoSeq 0 plainConv = .error (.typeError
      ("Only Loadable modules can be added. '" ++ classNameOfVal plainConv
        ++ "' is not a LoadableMixin.")) ∧
    moduleDictSetItem demoSeq "x" plainConv = .error (.typeError
      ("Only Loadable modules can be added. '" ++ classNameOfVal plainConv
        ++ "' is not a LoadableMixin.")) ∧
    containerExtend demoSeq [demoGraph, plainConv] = .error (.typeError
      ("Only Loadable modules can be added. '" ++ classNameOfVal plainConv
        ++ "' is not a LoadableMixin.")) :=
  ⟨container_mutation_conformance.1 demoSeq plainConv rfl,
   container_mutation_conformance.2.1 demoSeq plainConv 0 rfl,
   container_mutation_conformance.2.2.1 demoSeq "x" plainConv rfl,
   container_mutation_conformance.2.2.2 demoSeq [demoGraph] plainConv []
     (by intro g hg; have := List.mem_singleton.mp hg; subst this; rfl) rfl⟩


/-- A successful dereference is in bounds. -/
theorem get_some_lt {h : Heap} {a : Nat} {o : HObj} (hg : h.get a = some o) :
    a < h.objs.length := by
  by_contra hle
  rw [Heap.get, List.getElem?_eq_none (by omega)] at hg
  exact Option.noConfusion hg

/-- `HeapExt` is reflexive. -/
theorem heapExt_refl (h : Heap) : HeapExt h h := ⟨le_refl _, fun _ _ => rfl⟩

/-- `HeapExt` is transitive. -/
theorem heapExt_trans {h1 h2 h3 : Heap} (a : HeapExt h1 h2) (b : HeapExt h2 h3) :
    HeapExt h1 h3 :=
  ⟨le_trans a.1 b.1, fun i hi => (b.2 i (lt_of_lt_of_le hi a.1)).trans (a.2 i hi)⟩

/-- Allocation only extends the heap. -/
theorem heapExt_alloc (h : Heap) (o : HObj) : HeapExt h (h.alloc o).1 := by
  refine ⟨by simp [Heap.alloc], ?_⟩
  intro a ha
  simp [Heap.alloc, Heap.get, List.getElem?_append_left ha]

/-- The freshly allocated address holds the allocated object. -/
theorem get_alloc_self (h : Heap) (o : HObj) :
    (h.alloc o).1.get (h.alloc o).2 = some o := by
  simp [Heap.alloc, Heap.get]

/-- Mutation at one address leaves every other address alone. -/
theorem get_mutate_ne {h : Heap} {a b : Nat} {o : HObj} (hne : a ≠ b) :
    (h.mutate a o).get b = h.get b := by
  simp [Heap.mutate, Heap.get, List.getElem?_set_ne hne]

-- containerAt is stable under pointwise-equal get
/-- `containerAt` only looks at the dereferenced entry. -/
theorem containerAt_congr {h1 h2 : Heap} {b : Nat} (hg : h2.get b = h1.get b) :
    containerAt h2 b = containerAt h1 b := by
  rw [containerAt, containerAt, hg]



/-- Reachability confined below the old frontier transfers back along a heap
extension: if every address reachable in `h1` is allocated in `h1`, then
reachability in an extension `h2` implies reachability in `h1`. -/
theorem points_back {h1 h2 : Heap} (hext : HeapExt h1 h2) :
    ∀ {w : HVal} {b : Nat}, Points h2 w b →
      (∀ b', Points h1 w b' → b' < h1.objs.length) → Points h1 w b := by
  intro w b hp
  induction hp with
  | here a => intro _; exact .here a
  | @listElem a xs x b' hget hmem _ ih =>
      intro hbnd
      have ha : a < h1.objs.length := hbnd a (.here a)
      have hget1 : h1.get a = some (.hlist xs) := by
        rw [← hext.2 a ha]; exact hget
      exact .listElem hget1 hmem
        (ih (fun b'' hb => hbnd b'' (.listElem hget1 hmem hb)))
  | @tupleElem a xs x b' hget hmem _ ih =>
      intro hbnd
      have ha : a < h1.objs.length := hbnd a (.here a)
      have hget1 : h1.get a = some (.htuple xs) := by
        rw [← hext.2 a ha]; exact hget
      exact .tupleElem hget1 hmem
        (ih (fun b'' hb => hbnd b'' (.tupleElem hget1 hmem hb)))
  | @dictElem a es k x b' hget hmem _ ih =>
      intro hbnd
      have ha : a < h1.objs.length := hbnd a (.here a)
      have hget1 : h1.get a = some (.hdict es) := by
        rw [← hext.2 a ha]; exact hget
      exact .dictElem hget1 hmem
        (ih (fun b'' hb => hbnd b'' (.dictElem hget1 hmem hb)))

/-- `GoodOut` is antitone in the frontier. -/
theorem goodOut_mono {m n : Nat} {h : Heap} {w : HVal} (hmn : m ≤ n)
    (hg : GoodOut n h w) : GoodOut m h w :=
  fun b hb => ⟨(hg b hb).1, fun hc => le_trans hmn ((hg b hb).2 hc)⟩

/-- `GoodOut` transfers along a heap extension. -/
theorem goodOut_ext {n : Nat} {h1 h2 : Heap} {w : HVal} (hext : HeapExt h1 h2)
    (hg : GoodOut n h1 w) : GoodOut n h2 w := by
  intro b hb
  have hb1 : Points h1 w b := points_back hext hb (fun b' hb' => (hg b' hb').1)
  refine ⟨lt_of_lt_of_le (hg b hb1).1 hext.1, ?_⟩
  intro hc
  have hgb : h2.get b = h1.get b := hext.2 b (hg b hb1).1
  exact (hg b hb1).2 (by rw [← containerAt_congr hgb]; exact hc)



/-- Pointwise congruence for `oMapE`. -/
theorem oMapE_congr {f g : HVal → Option PVal} :
    ∀ xs : List HVal, (∀ x ∈ xs, f x = g x) → oMapE f xs = oMapE g xs := by
  intro xs h
  induction xs with
  | nil => rfl
  | cons a tl ih =>
      rw [oMapE, oMapE, h a (List.mem_cons_self a tl),
        ih (fun x hx => h x (List.mem_cons_of_mem a hx))]

/-- Pointwise congruence for `oMapKE`. -/
theorem oMapKE_congr {f g : HVal → Option PVal} :
    ∀ es : List (String × HVal), (∀ kv ∈ es, f kv.2 = g kv.2) →
      oMapKE f es = oMapKE g es := by
  intro es h
  induction es with
  | nil => rfl
  | cons kv tl ih =>
      obtain ⟨k, v⟩ := kv
      rw [oMapKE, oMapKE, h (k, v) (List.mem_cons_self _ tl),
        ih (fun x hx => h x (List.mem_cons_of_mem _ hx))]

/-- Reading depends only on the heap entries reachable from the value. -/
theorem read_agree {h1 h2 : Heap} :
    ∀ (g : Nat) (w : HVal), (∀ b, Points h1 w b → h2.get b = h1.get b) →
      hRead g h2 w = hRead g h1 w := by
  intro g
  induction g with
  | zero => intro w _; rfl
  | succ g ih =>
      intro w hagree
      match w with
      | .iV n => rfl
      | .ref a =>
          have hga : h2.get a = h1.get a := hagree a (.here a)
          rw [hRead, hRead, hga]
          cases hh : h1.get a with
          | none => rfl
          | some o =>
              cases o with
              | htensor ver => rfl
              | hlist xs =>
                  have : oMapE (hRead g h2) xs = oMapE (hRead g h1) xs := by
                    apply oMapE_congr
                    intro x hx
                    exact ih x (fun b hb => hagree b (.listElem hh hx hb))
                  dsimp only
                  rw [this]
              | htuple xs =>
                  have : oMapE (hRead g h2) xs = oMapE (hRead g h1) xs := by
                    apply oMapE_congr
                    intro x hx
                    exact ih x (fun b hb => hagree b (.tupleElem hh hx hb))
                  dsimp only
                  rw [this]
              | hdict es =>
                  have : oMapKE (hRead g h2) es = oMapKE (hRead g h1) es := by
                    apply oMapKE_congr
                    intro kv hkv
                    exact ih kv.2 (fun b hb => hagree b (.dictElem hh hkv hb))
                  dsimp only
                  rw [this]



/-- The list traversal of the heap serializer preserves the extension and
freshness invariants, threading the heap left to right. -/
theorem hMapE_inv (fuel : Nat)
    (IH : ∀ (h : Heap) (v : HVal) (h' : Heap) (w : HVal),
      hSerialize fuel h v = .ok (h', w) →
      HeapExt h h' ∧ GoodOut h.objs.length h' w) :
    ∀ (xs : List HVal) (h h' : Heap) (ws : List HVal),
      hMapE (hSerialize fuel) h xs = .ok (h', ws) →
      HeapExt h h' ∧ ∀ w ∈ ws, GoodOut h.objs.length h' w := by
  intro xs
  induction xs with
  | nil =>
      intro h h' ws hm
      simp [hMapE, pure, Except.pure] at hm
      obtain ⟨rfl, rfl⟩ := hm
      exact ⟨heapExt_refl h, by intro w hw; cases hw⟩
  | cons v vs ih =>
      intro h h' ws hm
      rw [hMapE] at hm
      cases hv : hSerialize fuel h v with
      | error e => rw [hv] at hm; simp [except_bind_error] at hm
      | ok p =>
          obtain ⟨h1, w⟩ := p
          rw [hv, except_bind_ok] at hm
          dsimp only at hm
          cases hrest : hMapE (hSerialize fuel) h1 vs with
          | error e => rw [hrest] at hm; simp [except_bind_error] at hm
          | ok q =>
              obtain ⟨h2, ws'⟩ := q
              rw [hrest, except_bind_ok] at hm
              simp [pure, Except.pure] at hm
              obtain ⟨rfl, rfl⟩ := hm
              obtain ⟨hext1, hg1⟩ := IH h v h1 w hv
              obtain ⟨hext2, hg2⟩ := ih h1 h2 ws' hrest
              refine ⟨heapExt_trans hext1 hext2, ?_⟩
              intro u hu
              rcases List.mem_cons.mp hu with rfl | hu2
              · exact goodOut_ext hext2 hg1
              · exact goodOut_mono hext1.1 (hg2 u hu2)

/-- Keyed version of `hMapE_inv`. -/
theorem hMapKE_inv (fuel : Nat)
    (IH : ∀ (h : Heap) (v : HVal) (h' : Heap) (w : HVal),
      hSerialize fuel h v = .ok (h', w) →
      HeapExt h h' ∧ GoodOut h.objs.length h' w) :
    ∀ (es : List (String × HVal)) (h h' : Heap) (fs : List (String × HVal)),
      hMapKE (hSerialize fuel) h es = .ok (h', fs) →
      HeapExt h h' ∧ ∀ kv ∈ fs, GoodOut h.objs.length h' kv.2 := by
  intro es
  induction es with
  | nil =>
      intro h h' fs hm
      simp [hMapKE, pure, Except.pure] at hm
      obtain ⟨rfl, rfl⟩ := hm
      exact ⟨heapExt_refl h, by intro kv hkv; cases hkv⟩
  | cons kv vs ih =>
      obtain ⟨k, v⟩ := kv
      intro h h' fs hm
      rw [hMapKE] at hm
      cases hv : hSerialize fuel h v with
      | error e => rw [hv] at hm; simp [except_bind_error] at hm
      | ok p =>
          obtain ⟨h1, w⟩ := p
          rw [hv, except_bind_ok] at hm
          dsimp only at hm
          cases hrest : hMapKE (hSerialize fuel) h1 vs with
          | error e => rw [hrest] at hm; simp [except_bind_error] at hm
          | ok q =>
              obtain ⟨h2, fs'⟩ := q
              rw [hrest, except_bind_ok] at hm
              simp [pure, Except.pure] at hm
              obtain ⟨rfl, rfl⟩ := hm
              obtain ⟨hext1, hg1⟩ := IH h v h1 w hv
              obtain ⟨hext2, hg2⟩ := ih h1 h2 fs' hrest
              refine ⟨heapExt_trans hext1 hext2, ?_⟩
              intro u hu
              rcases List.mem_cons.mp hu with rfl | hu2
              · exact goodOut_ext hext2 hg1
              · exact goodOut_mono hext1.1 (hg2 u hu2)



/-- The heap serializer never touches existing objects, and every container
reachable from its output is freshly allocated; only tensor references are
shared with the input. -/
theorem hSerialize_inv :
    ∀ (fuel : Nat) (h : Heap) (v : HVal) (h' : Heap) (w : HVal),
      hSerialize fuel h v = .ok (h', w) →
      HeapExt h h' ∧ GoodOut h.objs.length h' w := by
  intro fuel
  induction fuel with
  | zero =>
      intro h v h' w hser
      simp [hSerialize, except_throw] at hser
  | succ f ihf =>
      intro h v h' w hser
      match v with
      | .iV n =>
          simp [hSerialize, pure, Except.pure] at hser
          obtain ⟨rfl, rfl⟩ := hser
          exact ⟨heapExt_refl h, by intro b hb; cases hb⟩
      | .ref a =>
          rw [hSerialize] at hser
          cases hga : h.get a with
          | none => rw [hga] at hser; simp [except_throw] at hser
          | some o =>
              rw [hga] at hser
              cases o with
              | htensor ver =>
                  simp [pure, Except.pure] at hser
                  obtain ⟨rfl, rfl⟩ := hser
                  refine ⟨heapExt_refl h, ?_⟩
                  intro b hb
                  cases hb with
                  | here =>
                      exact ⟨get_some_lt hga,
        fun hc => by rw [containerAt, hga] at hc; exact absurd hc (by simp)⟩
                  | listElem hget hmem hp => rw [hga] at hget; simp at hget
                  | tupleElem hget hmem hp => rw [hga] at hget; simp at hget
                  | dictElem hget hmem hp => rw [hga] at hget; simp at hget
              | hlist xs =>
                  dsimp only at hser
                  cases hm : hMapE (hSerialize f) h xs with
                  | error e => rw [hm] at hser; simp [except_bind_error] at hser
                  | ok p =>
                      obtain ⟨h1, ys⟩ := p
                      rw [hm, except_bind_ok] at hser
                      dsimp only [Heap.alloc] at hser
                      simp [pure, Except.pure] at hser
                      obtain ⟨rfl, rfl⟩ := hser
                      obtain ⟨hext1, hally⟩ := hMapE_inv f ihf xs h h1 ys hm
                      have hext2 : HeapExt h1 ⟨h1.objs ++ [HObj.hlist ys]⟩ :=
                        heapExt_alloc h1 (.hlist ys)
                      have hgetnew :
                          (⟨h1.objs ++ [HObj.hlist ys]⟩ : Heap).get h1.objs.length
                            = some (.hlist ys) := get_alloc_self h1 (.hlist ys)
                      refine ⟨heapExt_trans hext1 hext2, ?_⟩
                      intro b hb
                      cases hb with
                      | here =>
                          refine ⟨by simp [Heap.get, List.length_append], fun _ => hext1.1⟩
                      | listElem hget hmem hp =>
                          rw [hgetnew] at hget
                          injection hget with he
                          injection he with he2
                          subst he2
                          rename_i x
                          exact goodOut_ext hext2 (hally x hmem) b hp
                      | tupleElem hget hmem hp =>
                          rw [hgetnew] at hget; simp at hget
                      | dictElem hget hmem hp =>
                          rw [hgetnew] at hget; simp at hget
              | htuple xs =>
                  dsimp only at hser
                  cases hm : hMapE (hSerialize f) h xs with
                  | error e => rw [hm] at hser; simp [except_bind_error] at hser
                  | ok p =>
                      obtain ⟨h1, ys⟩ := p
                      rw [hm, except_bind_ok] at hser
                      dsimp only [Heap.alloc] at hser
                      simp [pure, Except.pure] at hser
                      obtain ⟨rfl, rfl⟩ := hser
                      obtain ⟨hext1, hally⟩ := hMapE_inv f ihf xs h h1 ys hm
                      have hext2 : HeapExt h1 ⟨h1.objs ++ [HObj.htuple ys]⟩ :=
                        heapExt_alloc h1 (.htuple ys)
                      have hgetnew :
                          (⟨h1.objs ++ [HObj.htuple ys]⟩ : Heap).get h1.objs.length
                            = some (.htuple ys) := get_alloc_self h1 (.htuple ys)
                      refine ⟨heapExt_trans hext1 hext2, ?_⟩
                      intro b hb
                      cases hb with
                      | here =>
                          refine ⟨by simp [Heap.get, List.length_append], fun _ => hext1.1⟩
                      | tupleElem hget hmem hp =>
                          rw [hgetnew] at hget
                          injection hget with he
                          injection he with he2
                          subst he2
                          rename_i x
                          exact goodOut_ext hext2 (hally x hmem) b hp
                      | listElem hget hmem hp =>
                          rw [hgetnew] at hget; simp at hget
                      | dictElem hget hmem hp =>
                          rw [hgetnew] at hget; simp at hget
              | hdict es =>
                  dsimp only at hser
                  cases hm : hMapKE (hSerialize f) h es with
                  | error e => rw [hm] at hser; simp [except_bind_error] at hser
                  | ok p =>
                      obtain ⟨h1, fs⟩ := p
                      rw [hm, except_bind_ok] at hser
                      dsimp only [Heap.alloc] at hser
                      simp [pure, Except.pure] at hser
                      obtain ⟨rfl, rfl⟩ := hser
                      obtain ⟨hext1, hally⟩ := hMapKE_inv f ihf es h h1 fs hm
                      have hext2 : HeapExt h1 ⟨h1.objs ++ [HObj.hdict fs]⟩ :=
                        heapExt_alloc h1 (.hdict fs)
                      have hgetnew :
                          (⟨h1.objs ++ [HObj.hdict fs]⟩ : Heap).get h1.objs.length
                            = some (.hdict fs) := get_alloc_self h1 (.hdict fs)
                      refine ⟨heapExt_trans hext1 hext2, ?_⟩
                      intro b hb
                      cases hb with
                      | here =>
                          refine ⟨by simp [Heap.get, List.length_append], fun _ => hext1.1⟩
                      | dictElem hget hmem hp =>
                          rw [hgetnew] at hget
                          injection hget with he
                          injection he with he2
                          subst he2
                          rename_i k x
                          exact goodOut_ext hext2 (hally (k, x) hmem) b hp
                      | listElem hget hmem hp =>
                          rw [hgetnew] at hget; simp at hget
                      | tupleElem hget hmem hp =>
                          rw [hgetnew] at hget; simp at hget



/-- C9 amended.  The argument snapshot taken by `_nested_serialize` is a
structural copy of every list/tuple/dict layer: capture leaves all
pre-existing objects untouched, every container reachable from the snapshot
is freshly allocated, and consequently in-place mutation of any pre-existing
container (any list/tuple/dict the caller could mutate afterwards) leaves the
snapshot's readout unchanged.  Tensor leaves are outside this guarantee: they
are passed through by reference, as the counterexample shows. -/
theorem capture_copies_containers (fuel : Nat) (h : Heap) (v : HVal)
    (h' : Heap) (w : HVal) (hser : hSerialize fuel h v = .ok (h', w)) :
    HeapExt h h' ∧
    (∀ b, Points h' w b → containerAt h' b = true → h.objs.length ≤ b) ∧
    (∀ (a : Nat) (o : HObj) (g : Nat), a < h.objs.length → containerAt h a = true →
      hRead g (h'.mutate a o) w = hRead g h' w) := by
  obtain ⟨hext, hgood⟩ := hSerialize_inv fuel h v h' w hser
  refine ⟨hext, fun b hb hc => (hgood b hb).2 hc, ?_⟩
  intro a o g ha hca
  apply read_agree
  intro b hb
  have hne : a ≠ b := by
    intro he
    subst he
    have hgb : h'.get a = h.get a := hext.2 a ha
    have hc' : containerAt h' a = true := by
      rw [containerAt_congr hgb]; exact hca
    have := (hgood a hb).2 hc'
    omega
  exact get_mutate_ne hne

/-- C9 counterexample.  A tensor argument is captured *by reference*: after
serializing `ref 0` (a tensor) the snapshot still points at address 0, so
mutating the tensor in place afterwards changes what the stored snapshot
reads back — the claim's "for every argument value, in-place mutation leaves
the stored snapshot unchanged" fails on non-container leaves. -/
theorem capture_aliases_tensor_cex :
    hSerialize 3 ⟨[.htensor 0]⟩ (.ref 0) = .ok (⟨[.htensor 0]⟩, .ref 0) ∧
    hRead 3 ((⟨[.htensor 0]⟩ : Heap).mutate 0 (.htensor 1)) (.ref 0) ≠
      hRead 3 (⟨[.htensor 0]⟩ : Heap) (.ref 0) := by
  refine ⟨rfl, ?_⟩
  intro hcontra
  rw [show hRead 3 ((⟨[.htensor 0]⟩ : Heap).mutate 0 (.htensor 1)) (.ref 0)
        = some (.tensorV 1) from rfl,
      show hRead 3 (⟨[.htensor 0]⟩ : Heap) (.ref 0) = some (.tensorV 0) from rfl]
    at hcontra
  injection hcontra with h1
  injection h1 with h2
  exact absurd h2 (by decide)

/-- Witness for C9 amended: capturing a one-element list allocates a fresh
copy at address 1; mutating the caller's original list at address 0 afterwards
does not change what the snapshot reads. -/
theorem capture_copies_containers_witness :
    hRead 4 ((⟨[.hlist [.iV 1], .hlist [.iV 1]]⟩ : Heap).mutate 0 (.hlist []))
        (.ref 1) =
      hRead 4 (⟨[.hlist [.iV 1], .hlist [.iV 1]]⟩ : Heap) (.ref 1) :=
  (capture_copies_containers 3 ⟨[.hlist [.iV 1]]⟩ (.ref 0)
      ⟨[.hlist [.iV 1], .hlist [.iV 1]]⟩ (.ref 1) rfl).2.2
    0 (.hlist []) 4 (by decide) (by decide)

end Cassetta
